import Mathlib

/-!
Verification of the BentoKaze optimization model builder against its
natural-language specification.

The repository contains two variants of the optimizer:
* `src/src/bentokaze.py` (the primary variant), embedded in namespace `BentoKaze`;
* `src/bentokaze.py` (the root variant), embedded in namespace `RootKaze`.

Both build a PuLP linear program from a merged ingredient table
(`all_data` resp. `data`), a category→density dictionary, a target-nutrition
dictionary and comparison operators, then solve it and derive totals.

Embedding conventions:
* pandas DataFrame rows become `Row` values; row-wise iteration becomes a
  `List Row`; the per-nutrient columns of a row become the association list
  `Row.nutrients` so that `row[nutrient]` is a fallible lookup, exactly as a
  missing column raises `KeyError` in pandas.
* Python dicts become association lists; `d[k]` is `lookupE`, which fails
  with `PyErr.keyError` when the key is absent, mirroring Python's `KeyError`.
* `self.all_data[self.all_data["name"] == ingredient].iloc[0]` becomes
  `findRowE`, which fails with `PyErr.indexError` on an empty selection,
  mirroring pandas' `IndexError`.
* PuLP's `LpProblem` becomes `LpProb`; `prob += (constraint, name)` becomes
  `probAddConstraint` (PuLP stores constraints in an ordered dict keyed by
  name: a repeated name replaces in place, a fresh name appends) and
  `prob += expression` becomes `probSetObjective` (PuLP assigns
  `self.objective = other`, replacing any previous objective).
* A PuLP `LpAffineExpression` becomes a list of (variable name, coefficient)
  terms; a decision variable is identified by its name, as in the source,
  where `ingredient_vars` maps each ingredient name to the variable of the
  same name.
* Python exceptions become the `Except PyErr` monad.  Machine reals become
  `Rat`; the sources perform only field arithmetic on their floats.
-/

/-- Python exception kinds relevant to the embedded code, together with the
error taxonomy that the specification prescribes.  The source files define
none of the specification's error classes; the only exceptions the embedded
methods can raise are the built-in `KeyError` (failed dict / column lookup)
and `IndexError` (`.iloc[0]` on an empty selection).  The constructors
`dataIntegrityError`, `configurationError` and `unsupportedFormatError`
exist solely so that statements about the specification's taxonomy can be
expressed; no embedded definition ever produces them. -/
inductive PyErr where
  | keyError (key : String)
  | indexError
  | dataIntegrityError (msg : String)
  | configurationError (msg : String)
  | unsupportedFormatError (msg : String)
deriving DecidableEq, Repr

/-- One row of the merged ingredient table (`all_data` in the primary
variant, `data` in the root variant): the `name`, `category` and
`unit_price` columns are always present after the merge, and the remaining
nutrient columns are the association list `nutrients`. -/
structure Row where
  name : String
  category : String
  nutrients : List (String × Rat)
  unit_price : Rat
deriving DecidableEq, Repr

/-- Comparison operator of an emitted PuLP constraint. -/
inductive ConstrOp where
  | le
  | ge
deriving DecidableEq, Repr

/-- A named linear constraint: terms (variable name, coefficient), operator,
right-hand side, and the constraint's name in the problem. -/
structure LinConstraint where
  lhs : List (String × Rat)
  op : ConstrOp
  rhs : Rat
  name : String
deriving DecidableEq, Repr

/-- The state of a PuLP `LpProblem`: an optional objective expression and an
ordered collection of named constraints. -/
structure LpProb where
  objective : Option (List (String × Rat))
  constraints : List LinConstraint
deriving DecidableEq, Repr

/-- A freshly created `LpProblem("The BentoKaze Problem", LpMinimize)`. -/
def emptyProb : LpProb := ⟨none, []⟩

/-- PuLP's `prob += (constraint, name)`: constraints live in an ordered
dict keyed by name, so a repeated name replaces the stored constraint in
place and a fresh name appends at the end. -/
def probAddConstraint (p : LpProb) (c : LinConstraint) : LpProb :=
  if p.constraints.any (fun d => d.name == c.name) then
    { p with constraints := p.constraints.map (fun d => if d.name == c.name then c else d) }
  else
    { p with constraints := p.constraints ++ [c] }

/-- PuLP's `prob += expression`: assigns `self.objective = other`,
replacing any previously set objective (PuLP merely warns). -/
def probSetObjective (p : LpProb) (e : List (String × Rat)) : LpProb :=
  { p with objective := some e }

/-- Python `d[k]` on a dict modelled as an association list: the value at
the first matching key, `KeyError` if absent. -/
def lookupE (l : List (String × Rat)) (k : String) : Except PyErr Rat :=
  match l.lookup k with
  | some v => .ok v
  | none => .error (.keyError k)

/-- Embedding of `self.all_data[self.all_data["name"] == ingredient].iloc[0]`: the first
row of the table whose `name` column equals `ingredient`, `IndexError` if
the selection is empty. -/
def findRowE (all_data : List Row) (ingredient : String) : Except PyErr Row :=
  match all_data.find? (fun r => r.name == ingredient) with
  | some r => .ok r
  | none => .error .indexError

/-- Python's `str.capitalize()`: first character upper-cased, all remaining
characters lower-cased. -/
def pyCapitalize (s : String) : String :=
  match s.data with
  | [] => ⟨[]⟩
  | c :: cs => ⟨c.toUpper :: cs.map Char.toLower⟩

/-- Value of a linear expression, given an assignment of the variables. -/
def evalTerms (terms : List (String × Rat)) (asg : String → Rat) : Rat :=
  (terms.map (fun t => t.2 * asg t.1)).sum

/-- The coefficient of variable `v` in a linear expression (PuLP merges
repeated variables by summing their coefficients). -/
def coeffOf (terms : List (String × Rat)) (v : String) : Rat :=
  ((terms.filter (fun t => t.1 == v)).map (fun t => t.2)).sum

/-- The assignment induced by a solution mapping: a variable absent from
the mapping takes the value 0. -/
def asgOf (sol : List (String × Rat)) : String → Rat :=
  fun n => (sol.lookup n).getD 0

namespace BentoKaze

/-!  Embedding of `src/src/bentokaze.py` (`class BentoKazeOptimizer`). -/

/-- Method `_define_variables`: the dict comprehension
`{row["name"]: LpVariable(row["name"], lowBound=0, cat="Continuous") for ... }`.
A decision variable is identified by its name, so the dict is determined by
its key list: first-occurrence order, duplicates collapsed (a duplicate name
re-binds the same key to an equal variable). -/
def define_variables (all_data : List Row) : List String :=
  all_data.foldl (fun ks r => if r.name ∈ ks then ks else ks ++ [r.name]) []

/-- The constructor after `_load_data` has produced the merged table:
`_initialize_problem` creates a fresh `LpProblem` and calls
`_define_variables`.  Nothing in this path inspects whether the table is
empty, and no exception can be raised, which the `Except` codomain makes
explicit.  (Database loading itself is outside the modelled core.) -/
def bentokaze_init (all_data : List Row) : Except PyErr (LpProb × List String) :=
  .ok (emptyProb, define_variables all_data)

/-- The generator inside `add_volume_constraint`'s `lpSum`: one term
`quantity(name) * (1 / density_dict[category])` per row of the table. -/
def volumeTerms (all_data : List Row) (density_dict : List (String × Rat)) :
    Except PyErr (List (String × Rat)) :=
  all_data.mapM (fun r => do
    let d ← lookupE density_dict r.category
    pure (r.name, 1 / d))

/-- Method `add_volume_constraint`: emits the single constraint
`lpSum(vars[name] * (1 / density_dict[category]) for row) <= max_volume`,
named `TotalVolume`. -/
def add_volume_constraint (all_data : List Row) (density_dict : List (String × Rat))
    (max_volume : Rat) (prob : LpProb) : Except PyErr LpProb := do
  let terms ← volumeTerms all_data density_dict
  pure (probAddConstraint prob ⟨terms, .le, max_volume, "TotalVolume"⟩)

/-- The body of `add_nutritional_constraints`' loop for one
`(nutrient, operator)` item of `self.constraints`: on `>=` or `<=` it
builds `lpSum(row[nutrient] * vars[row["name"]] for row)`, compares it with
`self.target_nutrition[nutrient]` and adds it under the name
`f"Total{nutrient.capitalize()}"`; any other operator string falls through
both branches and the loop moves on. -/
def nutrientStep (all_data : List Row) (target_nutrition : List (String × Rat))
    (p : LpProb) (nc : String × String) : Except PyErr LpProb :=
  if nc.2 == ">=" then do
    let terms ← all_data.mapM (fun r => do
      let v ← lookupE r.nutrients nc.1
      pure (r.name, v))
    let tgt ← lookupE target_nutrition nc.1
    pure (probAddConstraint p ⟨terms, .ge, tgt, "Total" ++ pyCapitalize nc.1⟩)
  else if nc.2 == "<=" then do
    let terms ← all_data.mapM (fun r => do
      let v ← lookupE r.nutrients nc.1
      pure (r.name, v))
    let tgt ← lookupE target_nutrition nc.1
    pure (probAddConstraint p ⟨terms, .le, tgt, "Total" ++ pyCapitalize nc.1⟩)
  else
    pure p

/-- Method `add_nutritional_constraints`: iterates over the
`self.constraints` dict items.  (In the source a raised exception leaves
constraints of earlier loop iterations inside the mutated `self.prob`; the
`Except` embedding returns the error and discards that partial state, which
no contract of the class observes.) -/
def add_nutritional_constraints (all_data : List Row)
    (target_nutrition : List (String × Rat)) (constraints : List (String × String))
    (prob : LpProb) : Except PyErr LpProb :=
  constraints.foldlM (nutrientStep all_data target_nutrition) prob

/-- The constraint that `add_category_mass_constraints` emits for one
category: `lpSum(vars[name] for row if row["category"] == category) >=
min_mass_per_category`, named `f"MinMass_{category}"`. -/
def minMassConstraint (all_data : List Row) (min_mass_per_category : Rat)
    (category : String) : LinConstraint :=
  ⟨(all_data.filter (fun r => r.category == category)).map (fun r => (r.name, (1 : Rat))),
   .ge, min_mass_per_category, "MinMass_" ++ category⟩

/-- Method `add_category_mass_constraints`: iterates over
`self.density_dict.keys()` — the keys of the density dictionary, not the
categories occurring in the ingredient table — emitting one `MinMass_` +
category constraint per key. -/
def add_category_mass_constraints (all_data : List Row)
    (density_dict : List (String × Rat)) (min_mass_per_category : Rat)
    (prob : LpProb) : LpProb :=
  (density_dict.map Prod.fst).foldl
    (fun p category => probAddConstraint p (minMassConstraint all_data min_mass_per_category category))
    prob

/-- Method `set_objective`: `self.prob += lpSum(row["unit_price"] * vars[row["name"]] for row)`;
an expression added to a PuLP problem replaces the objective. -/
def set_objective (all_data : List Row) (prob : LpProb) : LpProb :=
  probSetObjective prob (all_data.map (fun r => (r.name, r.unit_price)))

/-- The solution extraction inside `solve`:
`{v.name: v.varValue for v in self.prob.variables() if v.varValue > 0}`,
given the solver's (variable name, value) pairs.  Only strictly positive
values are retained. -/
def solve (vals : List (String × Rat)) : List (String × Rat) :=
  vals.filter (fun p => decide (0 < p.2))

/-- Method `calculate_nutrition_values`: starts from `{nutrient: 0.0 for nutrient
in self.target_nutrition.keys()}` and, for each `(ingredient, amount)` of
the solution, finds the ingredient's row and adds `row[nutrient] * amount`
to every nutrient's entry. -/
def calculate_nutrition_values (all_data : List Row)
    (target_nutrition : List (String × Rat)) (solution : List (String × Rat)) :
    Except PyErr (List (String × Rat)) :=
  solution.foldlM
    (fun acc p => do
      let row ← findRowE all_data p.1
      acc.mapM (fun nv => do
        let x ← lookupE row.nutrients nv.1
        pure (nv.1, nv.2 + x * p.2)))
    (target_nutrition.map (fun t => (t.1, (0 : Rat))))

/-- Method `calculate_total_volume`: starts from `0.0` and, for each
`(ingredient, amount)` of the solution, finds the ingredient's row and adds
`amount * (1 / self.density_dict[row["category"]])`. -/
def calculate_total_volume (all_data : List Row) (density_dict : List (String × Rat))
    (solution : List (String × Rat)) : Except PyErr Rat :=
  solution.foldlM
    (fun total p => do
      let row ← findRowE all_data p.1
      let d ← lookupE density_dict row.category
      pure (total + p.2 * (1 / d)))
    0

/-- Method `export_problem`: for each requested format writes
`output_dir/filename.fmt` via `writeMPS` when the format is `"mps"`,
via `writeLP` when it is `"lp"`, and otherwise logs an error and
`continue`s to the next format.  The method raises nothing, which the
always-`ok` `Except` codomain makes explicit; the result lists the
(path, format) pairs actually written, in order. -/
def export_problem (filename : String) (export_formats : List String)
    (output_dir : String) : Except PyErr (List (String × String)) :=
  .ok (export_formats.filterMap (fun fmt =>
    if fmt == "mps" then some (output_dir ++ "/" ++ filename ++ "." ++ fmt, fmt)
    else if fmt == "lp" then some (output_dir ++ "/" ++ filename ++ "." ++ fmt, fmt)
    else none))

end BentoKaze

namespace RootKaze

/-!  Embedding of `src/bentokaze.py` (the root variant of the class). -/

/-- The root variant's `add_volume_constraint`: its `lpSum` term is
`vars[row["name"]] * self.density_dict[row["category"]]` — it multiplies
the quantity by the density instead of dividing — and the constraint is
named `max_volume`. -/
def add_volume_constraint (data : List Row) (density_dict : List (String × Rat))
    (max_volume : Rat) (prob : LpProb) : Except PyErr LpProb := do
  let terms ← data.mapM (fun r => do
    let d ← lookupE density_dict r.category
    pure (r.name, d))
  pure (probAddConstraint prob ⟨terms, .le, max_volume, "max_volume"⟩)

/-- The root variant's `add_category_constraints`: iterates over
`self.data["category"].unique()` — the distinct categories of the
ingredient table in first-occurrence order — emitting one
`f"category_{category}"` constraint per category. -/
def add_category_constraints (data : List Row) (min_mass_per_category : Rat)
    (prob : LpProb) : LpProb :=
  ((data.map Row.category).eraseDups).foldl
    (fun p category =>
      probAddConstraint p
        ⟨(data.filter (fun r => r.category == category)).map (fun r => (r.name, (1 : Rat))),
         .ge, min_mass_per_category, "category_" ++ category⟩)
    prob

/-- The root variant's `set_objective_function`:
`self.prob += (lpSum(row["unit_price"] * vars[row["name"]] for row), "TotalCost")`;
an expression added to a PuLP problem replaces the objective (the attached
name only names the objective). -/
def set_objective_function (data : List Row) (prob : LpProb) : LpProb :=
  probSetObjective prob (data.map (fun r => (r.name, r.unit_price)))

/-- The solution extraction inside the root variant's `solve`:
`{v.name: v.varValue for v in self.prob.variables()}` — every variable is
retained, with no filtering of zero values. -/
def solve (vals : List (String × Rat)) : List (String × Rat) :=
  vals

end RootKaze

/-!  Specification-side derived quantities, used to state the theorems. -/

/-- Whether an embedded fallible computation returned normally. -/
def okB {α : Type} : Except PyErr α → Bool
  | .ok _ => true
  | .error _ => false

/-- Whether an embedded fallible computation raised the specification's
`DataIntegrityError` (no embedded method ever does: the source defines no
such class). -/
def isDataIntegrityError {α : Type} : Except PyErr α → Bool
  | .error (.dataIntegrityError _) => true
  | _ => false

/-- Whether an embedded fallible computation raised the specification's
`ConfigurationError` (no embedded method ever does: the source defines no
such class). -/
def isConfigurationError {α : Type} : Except PyErr α → Bool
  | .error (.configurationError _) => true
  | _ => false

/-- The density recorded for a category, with default 0 for a category
absent from the dictionary (the default is never reached in the theorems,
whose hypotheses require the lookup to succeed). -/
def densOfD (density_dict : List (String × Rat)) (category : String) : Rat :=
  (density_dict.lookup category).getD 0

/-- The volume coefficient `1 / density(category(name))` that the table
associates with an ingredient name: the density of the category of the
first row carrying that name. -/
def rowCoeffD (all_data : List Row) (density_dict : List (String × Rat))
    (n : String) : Rat :=
  match all_data.find? (fun r => r.name == n) with
  | some r => 1 / densOfD density_dict r.category
  | none => 0

/-- The per-unit amount of nutrient `n` of the ingredient named `i`,
read from the first row carrying that name (default 0, never reached under
the theorems' hypotheses). -/
def nutrAmountD (all_data : List Row) (i n : String) : Rat :=
  match all_data.find? (fun r => r.name == i) with
  | some r => (r.nutrients.lookup n).getD 0
  | none => 0

/-- The nutrient total `Σ nutrient(i) * amount(i)` over a solution's
entries. -/
def nutrTotal (all_data : List Row) (sol : List (String × Rat)) (n : String) : Rat :=
  (sol.map (fun p => nutrAmountD all_data p.1 n * p.2)).sum

/-- Row lookup composed with nutrient-column lookup, as
`calculate_nutrition_values` performs per solution entry. -/
def nutrLookupE (all_data : List Row) (i n : String) : Except PyErr Rat := do
  let r ← findRowE all_data i
  lookupE r.nutrients n

/-!  General helper lemmas about the embedding's building blocks. -/

theorem string_append_left_cancel {s t u : String} (h : s ++ t = s ++ u) : t = u := by
  apply String.ext
  have h2 := congrArg String.data h
  simp only [String.data_append] at h2
  exact List.append_cancel_left h2

theorem mapM_ok_of {α β : Type} (f : α → Except PyErr β) (g : α → β) (l : List α)
    (h : ∀ x ∈ l, f x = .ok (g x)) : l.mapM f = .ok (l.map g) := by
  induction l with
  | nil => rfl
  | cons a as ih =>
      rw [List.mapM_cons, h a (List.mem_cons_self a as),
        ih (fun x hx => h x (List.mem_cons_of_mem _ hx))]
      rfl

theorem mapM_mem_ok {α β : Type} (f : α → Except PyErr β) (l : List α) (ys : List β)
    (h : l.mapM f = .ok ys) : ∀ x ∈ l, ∃ y, f x = .ok y := by
  induction l generalizing ys with
  | nil => simp
  | cons a as ih =>
      rw [List.mapM_cons] at h
      intro x hx
      cases hfa : f a with
      | error e =>
          rw [hfa] at h
          simp only [Bind.bind, Except.bind] at h
          cases h
      | ok y =>
          rw [hfa] at h
          simp only [Bind.bind, Except.bind] at h
          cases hrest : as.mapM f with
          | error e => rw [hrest] at h; simp only [Except.bind] at h; cases h
          | ok ys' =>
              rcases List.mem_cons.mp hx with hax | hxs
              · exact ⟨y, hax ▸ hfa⟩
              · exact ih ys' hrest x hxs

theorem sum_map_add {α : Type} (l : List α) (f g : α → Rat) :
    (l.map (fun x => f x + g x)).sum = (l.map f).sum + (l.map g).sum := by
  induction l with
  | nil => simp
  | cons a as ih => simp only [List.map_cons, List.sum_cons, ih]; ring

theorem sum_map_zero {α : Type} (l : List α) :
    (l.map (fun _ => (0 : Rat))).sum = 0 := by
  induction l with
  | nil => rfl
  | cons a as ih => simp [ih]

theorem sum_if_not_mem (l : List String) (m : String) (x : Rat)
    (h : m ∉ l) : (l.map (fun n => if n = m then x else 0)).sum = 0 := by
  induction l with
  | nil => rfl
  | cons a as ih =>
      have ha : a ≠ m := fun hc => h (hc ▸ List.mem_cons_self a as)
      simp only [List.map_cons, List.sum_cons, if_neg ha,
        ih (fun hc => h (List.mem_cons_of_mem _ hc)), add_zero]

theorem sum_if_mem (l : List String) (m : String) (x : Rat)
    (hnd : l.Nodup) (hm : m ∈ l) :
    (l.map (fun n => if n = m then x else 0)).sum = x := by
  induction l with
  | nil => cases hm
  | cons a as ih =>
      have hnot : a ∉ as := (List.nodup_cons.mp hnd).1
      rcases List.mem_cons.mp hm with ham | hmas
      · have hnotm : m ∉ as := ham ▸ hnot
        simp only [List.map_cons, List.sum_cons, if_pos ham.symm,
          sum_if_not_mem as m x hnotm, add_zero]
      · have ha : a ≠ m := fun hc => hnot (hc ▸ hmas)
        simp only [List.map_cons, List.sum_cons, if_neg ha,
          ih (List.nodup_cons.mp hnd).2 hmas, zero_add]

theorem lookup_none_of_not_mem (sol : List (String × Rat)) (n : String)
    (h : n ∉ sol.map Prod.fst) : sol.lookup n = none := by
  induction sol with
  | nil => rfl
  | cons p ps ih =>
      obtain ⟨k, b⟩ := p
      have hp : n ≠ k := by
        intro hc
        exact h (hc ▸ List.mem_cons_self k (ps.map Prod.fst))
      rw [List.lookup_cons]
      have hbeq : (n == k) = false := beq_false_of_ne hp
      rw [hbeq]
      exact ih (fun hc => h (List.mem_cons_of_mem _ hc))

theorem lookup_cons_eq (k : String) (b : Rat) (ps : List (String × Rat)) (n : String) :
    ((k, b) :: ps).lookup n = if n = k then some b else ps.lookup n := by
  rw [List.lookup_cons]
  by_cases h : n = k
  · rw [if_pos h]
    have : (n == k) = true := beq_iff_eq.mpr h
    rw [this]
  · rw [if_neg h]
    have : (n == k) = false := beq_false_of_ne h
    rw [this]

theorem asgOf_cons (k : String) (b : Rat) (ps : List (String × Rat)) (n : String) :
    asgOf ((k, b) :: ps) n = if n = k then b else asgOf ps n := by
  unfold asgOf
  rw [lookup_cons_eq]
  by_cases h : n = k
  · rw [if_pos h, if_pos h]; rfl
  · rw [if_neg h, if_neg h]

/-- Re-indexing a key-wise sum: over a duplicate-free key list, summing
`coef(key) * assigned(key)` with the assignment drawn from a duplicate-free
solution mapping whose keys all occur in the list equals summing
`amount * coef(key)` over the solution's entries. -/
theorem sum_reindex (keys : List String) (sol : List (String × Rat)) (c : String → Rat)
    (hknd : keys.Nodup) (hsnd : (sol.map Prod.fst).Nodup)
    (hsub : ∀ p ∈ sol, p.1 ∈ keys) :
    (keys.map (fun n => c n * asgOf sol n)).sum
      = (sol.map (fun p => p.2 * c p.1)).sum := by
  induction sol with
  | nil =>
      simp only [List.map_nil, List.sum_nil]
      have : ∀ n ∈ keys, c n * asgOf ([] : List (String × Rat)) n = 0 := by
        intro n _
        unfold asgOf
        simp
      calc (keys.map (fun n => c n * asgOf ([] : List (String × Rat)) n)).sum
          = (keys.map (fun _ => (0 : Rat))).sum := by
            exact congrArg List.sum (List.map_congr_left this)
        _ = 0 := sum_map_zero keys
  | cons p ps ih =>
      obtain ⟨m, a⟩ := p
      have hmnot : m ∉ ps.map Prod.fst := (List.nodup_cons.mp hsnd).1
      have hasg0 : asgOf ps m = 0 := by
        unfold asgOf
        rw [lookup_none_of_not_mem ps m hmnot]
        rfl
      have hpoint : ∀ n ∈ keys,
          c n * asgOf ((m, a) :: ps) n
            = c n * asgOf ps n + (if n = m then c m * a else 0) := by
        intro n _
        rw [asgOf_cons]
        by_cases h : n = m
        · rw [if_pos h, if_pos h, h, hasg0, mul_zero, zero_add]
        · rw [if_neg h, if_neg h, add_zero]
      calc (keys.map (fun n => c n * asgOf ((m, a) :: ps) n)).sum
          = (keys.map (fun n => c n * asgOf ps n + (if n = m then c m * a else 0))).sum := by
            exact congrArg List.sum (List.map_congr_left hpoint)
        _ = (keys.map (fun n => c n * asgOf ps n)).sum
              + (keys.map (fun n => if n = m then c m * a else 0)).sum :=
            sum_map_add keys _ _
        _ = (ps.map (fun q => q.2 * c q.1)).sum + c m * a := by
            rw [ih (List.nodup_cons.mp hsnd).2
                (fun q hq => hsub q (List.mem_cons_of_mem _ hq)),
              sum_if_mem keys m (c m * a) hknd
                (hsub (m, a) (List.mem_cons_self _ _))]
        _ = (((m, a) :: ps).map (fun q => q.2 * c q.1)).sum := by
            simp only [List.map_cons, List.sum_cons]
            ring

theorem find?_name_self (all_data : List Row) (r : Row)
    (hnd : (all_data.map Row.name).Nodup) (hr : r ∈ all_data) :
    all_data.find? (fun x => x.name == r.name) = some r := by
  induction all_data with
  | nil => cases hr
  | cons s rest ih =>
      have hnots : s.name ∉ rest.map Row.name := (List.nodup_cons.mp hnd).1
      rcases List.mem_cons.mp hr with hrs | hrrest
      · subst hrs
        simp [List.find?_cons_of_pos]
      · have hne : s.name ≠ r.name := by
          intro hc
          exact hnots (hc ▸ List.mem_map_of_mem Row.name hrrest)
        rw [List.find?_cons_of_neg _ (by simpa using hne)]
        exact ih (List.nodup_cons.mp hnd).2 hrrest

theorem find?_isSome_of_mem_names (all_data : List Row) (n : String)
    (h : n ∈ all_data.map Row.name) :
    (all_data.find? (fun r => r.name == n)).isSome := by
  induction all_data with
  | nil => cases h
  | cons s rest ih =>
      by_cases hs : s.name = n
      · rw [List.find?_cons_of_pos _ (by simpa using hs)]
        rfl
      · rw [List.find?_cons_of_neg _ (by simpa using hs)]
        rw [List.map_cons] at h
        rcases List.mem_cons.mp h with hc | hc
        · exact absurd hc.symm hs
        · exact ih hc

theorem probAddConstraint_fresh (p : LpProb) (c : LinConstraint)
    (h : ∀ d ∈ p.constraints, d.name ≠ c.name) :
    probAddConstraint p c = { p with constraints := p.constraints ++ [c] } := by
  have hany : p.constraints.any (fun d => d.name == c.name) = false := by
    rw [List.any_eq_false]
    intro d hd
    simpa using h d hd
  simp [probAddConstraint, hany]

theorem foldl_minMass (all_data : List Row) (mm : Rat) (keys : List String) (p : LpProb)
    (hfresh : ∀ c ∈ keys, ∀ d ∈ p.constraints, d.name ≠ "MinMass_" ++ c)
    (hnd : keys.Nodup) :
    (keys.foldl
      (fun q category => probAddConstraint q (BentoKaze.minMassConstraint all_data mm category))
      p).constraints
      = p.constraints ++ keys.map (BentoKaze.minMassConstraint all_data mm) := by
  induction keys generalizing p with
  | nil => simp
  | cons c rest ih =>
      rw [List.foldl_cons]
      have hcnot : c ∉ rest := (List.nodup_cons.mp hnd).1
      have hstep : probAddConstraint p (BentoKaze.minMassConstraint all_data mm c)
          = { p with constraints := p.constraints ++ [BentoKaze.minMassConstraint all_data mm c] } :=
        probAddConstraint_fresh p _ (fun d hd => hfresh c (List.mem_cons_self _ _) d hd)
      rw [hstep]
      rw [ih { p with constraints := p.constraints ++ [BentoKaze.minMassConstraint all_data mm c] }
        ?hfresh2 (List.nodup_cons.mp hnd).2]
      · simp
      case hfresh2 =>
        intro c' hc' d hd
        rcases List.mem_append.mp hd with hold | hnew
        · exact hfresh c' (List.mem_cons_of_mem _ hc') d hold
        · have hdc : d = BentoKaze.minMassConstraint all_data mm c := by simpa using hnew
          rw [hdc]
          intro hcontra
          have hcc : c = c' := string_append_left_cancel hcontra
          exact hcnot (hcc ▸ hc')

theorem volume_foldlM_ok (all_data : List Row) (dens : List (String × Rat))
    (sol : List (String × Rat)) :
    ∀ t : Rat,
    (∀ p ∈ sol, p.1 ∈ all_data.map Row.name) →
    (∀ r ∈ all_data, (dens.lookup r.category).isSome) →
    sol.foldlM
      (fun total p => do
        let row ← findRowE all_data p.1
        let d ← lookupE dens row.category
        pure (total + p.2 * (1 / d)))
      t = .ok (t + (sol.map (fun p => p.2 * rowCoeffD all_data dens p.1)).sum) := by
  induction sol with
  | nil =>
      intro t _ _
      simp only [List.foldlM_nil, List.map_nil, List.sum_nil, add_zero]
      rfl
  | cons p ps ih =>
      intro t hfind hd
      have hmem := hfind p (List.mem_cons_self _ _)
      obtain ⟨r, hfr⟩ := Option.isSome_iff_exists.mp (find?_isSome_of_mem_names all_data p.1 hmem)
      have hrmem : r ∈ all_data := List.mem_of_find?_eq_some hfr
      obtain ⟨d0, hd0⟩ := Option.isSome_iff_exists.mp (hd r hrmem)
      have h1 : findRowE all_data p.1 = pure r := by
        unfold findRowE
        rw [hfr]
        rfl
      have h2 : lookupE dens r.category = pure d0 := by
        unfold lookupE
        rw [hd0]
        rfl
      have hcoeff : rowCoeffD all_data dens p.1 = 1 / d0 := by
        unfold rowCoeffD
        rw [hfr]
        show 1 / densOfD dens r.category = 1 / d0
        unfold densOfD
        rw [hd0]
        rfl
      rw [List.foldlM_cons]
      simp only [h1, pure_bind, h2]
      rw [ih (t + p.2 * (1 / d0)) (fun q hq => hfind q (List.mem_cons_of_mem _ hq)) hd]
      rw [List.map_cons, List.sum_cons, hcoeff]
      rw [add_assoc]

theorem okB_ok {α : Type} (e : Except PyErr α) (h : okB e = true) : ∃ v, e = .ok v := by
  cases e with
  | ok v => exact ⟨v, rfl⟩
  | error err => simp [okB] at h

theorem nutrTotal_nil (all_data : List Row) (n : String) :
    nutrTotal all_data [] n = 0 := rfl

theorem nutrTotal_cons (all_data : List Row) (p : String × Rat)
    (ps : List (String × Rat)) (n : String) :
    nutrTotal all_data (p :: ps) n
      = nutrAmountD all_data p.1 n * p.2 + nutrTotal all_data ps n := by
  unfold nutrTotal
  rw [List.map_cons, List.sum_cons]

theorem nutrition_foldlM_ok (all_data : List Row) (sol : List (String × Rat)) :
    ∀ acc : List (String × Rat),
    (∀ p ∈ sol, (all_data.find? (fun r => r.name == p.1)).isSome) →
    (∀ p ∈ sol, ∀ nv ∈ acc, okB (nutrLookupE all_data p.1 nv.1) = true) →
    (sol.foldlM
      (fun (acc : List (String × Rat)) (p : String × Rat) => do
        let row ← findRowE all_data p.1
        acc.mapM (fun nv => do
          let x ← lookupE row.nutrients nv.1
          pure (nv.1, nv.2 + x * p.2)))
      acc : Except PyErr (List (String × Rat)))
      = .ok (acc.map (fun nv => (nv.1, nv.2 + nutrTotal all_data sol nv.1))) := by
  induction sol with
  | nil =>
      intro acc _ _
      simp only [List.foldlM_nil, nutrTotal_nil, add_zero]
      have hmapid : acc.map (fun nv : String × Rat => (nv.1, nv.2)) = acc := by
        simp
      rw [hmapid]
      rfl
  | cons p ps ih =>
      intro acc hfind hnutr
      obtain ⟨r, hfr⟩ :=
        Option.isSome_iff_exists.mp (hfind p (List.mem_cons_self _ _))
      have h1 : findRowE all_data p.1 = pure r := by
        unfold findRowE
        rw [hfr]
        rfl
      have hamount : ∀ nv ∈ acc,
          (lookupE r.nutrients nv.1 : Except PyErr Rat)
            = pure (nutrAmountD all_data p.1 nv.1) := by
        intro nv hnv
        have hok := hnutr p (List.mem_cons_self _ _) nv hnv
        unfold nutrLookupE at hok
        rw [h1, pure_bind] at hok
        obtain ⟨x, hx⟩ := okB_ok _ hok
        have hlk : r.nutrients.lookup nv.1 = some x := by
          unfold lookupE at hx
          cases hlk' : r.nutrients.lookup nv.1 with
          | some v => rw [hlk'] at hx; cases hx; rfl
          | none => rw [hlk'] at hx; cases hx
        unfold lookupE
        rw [hlk]
        unfold nutrAmountD
        rw [hfr]
        show Except.ok x = pure ((r.nutrients.lookup nv.1).getD 0)
        rw [hlk]
        rfl
      have hinner : acc.mapM (fun nv : String × Rat =>
            ((do
              let x ← lookupE r.nutrients nv.1
              pure (nv.1, nv.2 + x * p.2)) : Except PyErr (String × Rat)))
          = pure (acc.map (fun nv => (nv.1, nv.2 + nutrAmountD all_data p.1 nv.1 * p.2))) := by
        refine mapM_ok_of _ _ acc (fun nv hnv => ?_)
        rw [hamount nv hnv, pure_bind]
        rfl
      rw [List.foldlM_cons]
      simp only [h1, pure_bind, hinner]
      rw [ih (acc.map (fun nv => (nv.1, nv.2 + nutrAmountD all_data p.1 nv.1 * p.2)))
        (fun q hq => hfind q (List.mem_cons_of_mem _ hq))
        ?htrans]
      · rw [List.map_map]
        have hpoint : ∀ nv ∈ acc,
            ((fun nv : String × Rat => (nv.1, nv.2 + nutrTotal all_data ps nv.1)) ∘
              (fun nv : String × Rat => (nv.1, nv.2 + nutrAmountD all_data p.1 nv.1 * p.2))) nv
              = (fun nv : String × Rat => (nv.1, nv.2 + nutrTotal all_data (p :: ps) nv.1)) nv := by
          intro nv _
          show (nv.1, nv.2 + nutrAmountD all_data p.1 nv.1 * p.2 + nutrTotal all_data ps nv.1)
            = (nv.1, nv.2 + nutrTotal all_data (p :: ps) nv.1)
          rw [nutrTotal_cons, add_assoc]
        rw [List.map_congr_left hpoint]
      case htrans =>
        intro q hq nv' hnv'
        obtain ⟨nv, hnv, hnveq⟩ := List.mem_map.mp hnv'
        have : nv'.1 = nv.1 := by rw [← hnveq]
        rw [this]
        exact hnutr q (List.mem_cons_of_mem _ hq) nv hnv

theorem lookupE_shape (l : List (String × Rat)) (k : String) :
    (∃ v, lookupE l k = .ok v) ∨ (∃ key, lookupE l k = .error (.keyError key)) := by
  unfold lookupE
  cases h : l.lookup k with
  | some v => exact .inl ⟨v, rfl⟩
  | none => exact .inr ⟨k, rfl⟩

theorem mapM_shape {α β : Type} (f : α → Except PyErr β) (l : List α)
    (h : ∀ x ∈ l, (∃ v, f x = .ok v) ∨ (∃ k, f x = .error (.keyError k))) :
    (∃ ys, l.mapM f = .ok ys) ∨ (∃ k, l.mapM f = .error (.keyError k)) := by
  induction l with
  | nil => exact .inl ⟨[], rfl⟩
  | cons a as ih =>
      rw [List.mapM_cons]
      rcases h a (List.mem_cons_self _ _) with ⟨v, hv⟩ | ⟨k, hk⟩
      · rcases ih (fun x hx => h x (List.mem_cons_of_mem _ hx)) with ⟨ys, hys⟩ | ⟨k, hk⟩
        · exact .inl ⟨v :: ys, by rw [hv, hys]; rfl⟩
        · exact .inr ⟨k, by rw [hv, hk]; rfl⟩
      · exact .inr ⟨k, by rw [hk]; rfl⟩

theorem nutrientStep_shape (all_data : List Row) (target : List (String × Rat))
    (p : LpProb) (nc : String × String) :
    (∃ q, BentoKaze.nutrientStep all_data target p nc = .ok q)
    ∨ (∃ k, BentoKaze.nutrientStep all_data target p nc = .error (.keyError k)) := by
  have hrow : ∀ r ∈ all_data,
      (∃ v, ((do
          let v ← lookupE r.nutrients nc.1
          pure (r.name, v)) : Except PyErr (String × Rat)) = .ok v)
      ∨ (∃ k, ((do
          let v ← lookupE r.nutrients nc.1
          pure (r.name, v)) : Except PyErr (String × Rat)) = .error (.keyError k)) := by
    intro r _
    rcases lookupE_shape r.nutrients nc.1 with ⟨v, hv⟩ | ⟨k, hk⟩
    · exact .inl ⟨(r.name, v), by rw [hv]; rfl⟩
    · exact .inr ⟨k, by rw [hk]; rfl⟩
  unfold BentoKaze.nutrientStep
  by_cases hge : nc.2 == ">="
  · rw [if_pos hge]
    rcases mapM_shape (fun r : Row => do
        let v ← lookupE r.nutrients nc.1
        pure (r.name, v)) all_data hrow with ⟨ts, hts⟩ | ⟨k, hk⟩
    · rcases lookupE_shape target nc.1 with ⟨t, ht⟩ | ⟨k, hk⟩
      · exact .inl ⟨_, by rw [hts, ht]; rfl⟩
      · exact .inr ⟨k, by rw [hts, hk]; rfl⟩
    · exact .inr ⟨k, by rw [hk]; rfl⟩
  · rw [if_neg hge]
    by_cases hle : nc.2 == "<="
    · rw [if_pos hle]
      rcases mapM_shape (fun r : Row => do
          let v ← lookupE r.nutrients nc.1
          pure (r.name, v)) all_data hrow with ⟨ts, hts⟩ | ⟨k, hk⟩
      · rcases lookupE_shape target nc.1 with ⟨t, ht⟩ | ⟨k, hk⟩
        · exact .inl ⟨_, by rw [hts, ht]; rfl⟩
        · exact .inr ⟨k, by rw [hts, hk]; rfl⟩
      · exact .inr ⟨k, by rw [hk]; rfl⟩
    · rw [if_neg hle]
      exact .inl ⟨p, rfl⟩

theorem nutrientStep_fails (all_data : List Row) (target : List (String × Rat))
    (nc : String × String)
    (hop : nc.2 = ">=" ∨ nc.2 = "<=")
    (hmiss : ∃ r ∈ all_data, r.nutrients.lookup nc.1 = none) :
    ∀ p : LpProb, ∃ k, BentoKaze.nutrientStep all_data target p nc = .error (.keyError k) := by
  intro p
  obtain ⟨r0, hr0, hnone⟩ := hmiss
  have hfr0 : ((do
      let v ← lookupE r0.nutrients nc.1
      pure (r0.name, v)) : Except PyErr (String × Rat)) = .error (.keyError nc.1) := by
    unfold lookupE
    rw [hnone]
    rfl
  have hmapM : ∀ ts, all_data.mapM (fun r : Row => do
      let v ← lookupE r.nutrients nc.1
      pure (r.name, v)) = .ok ts → False := by
    intro ts hts
    obtain ⟨y, hy⟩ := mapM_mem_ok _ all_data ts hts r0 hr0
    rw [hfr0] at hy
    cases hy
  rcases nutrientStep_shape all_data target p nc with ⟨q, hq⟩ | ⟨k, hk⟩
  · exfalso
    unfold BentoKaze.nutrientStep at hq
    rcases hop with h | h
    · rw [if_pos (beq_iff_eq.mpr h)] at hq
      cases hmm : all_data.mapM (fun r : Row => do
          let v ← lookupE r.nutrients nc.1
          pure (r.name, v)) with
      | error e =>
          rw [hmm] at hq
          simp only [Bind.bind, Except.bind] at hq
          cases hq
      | ok ts => exact hmapM ts hmm
    · have hne : ¬((nc.2 == ">=") = true) := by
        rw [h]
        decide
      rw [if_neg hne, if_pos (beq_iff_eq.mpr h)] at hq
      cases hmm : all_data.mapM (fun r : Row => do
          let v ← lookupE r.nutrients nc.1
          pure (r.name, v)) with
      | error e =>
          rw [hmm] at hq
          simp only [Bind.bind, Except.bind] at hq
          cases hq
      | ok ts => exact hmapM ts hmm
  · exact ⟨k, hk⟩

theorem foldlM_nutrient_error (all_data : List Row) (target : List (String × Rat))
    (nc₀ : String × String)
    (hbad : ∀ p, ∃ k, BentoKaze.nutrientStep all_data target p nc₀ = .error (.keyError k))
    (cons : List (String × String)) :
    ∀ prob : LpProb, nc₀ ∈ cons →
    ∃ k, (cons.foldlM (BentoKaze.nutrientStep all_data target) prob : Except PyErr LpProb)
      = .error (.keyError k) := by
  induction cons with
  | nil =>
      intro prob hmem
      cases hmem
  | cons nc rest ih =>
      intro prob hmem
      rw [List.foldlM_cons]
      rcases List.mem_cons.mp hmem with h0 | hrest
      · obtain ⟨k, hk⟩ := hbad prob
        rw [← h0, hk]
        exact ⟨k, rfl⟩
      · rcases nutrientStep_shape all_data target prob nc with ⟨q, hq⟩ | ⟨k, hk⟩
        · rw [hq]
          obtain ⟨k, hk2⟩ := ih q hrest
          exact ⟨k, hk2⟩
        · rw [hk]
          exact ⟨k, rfl⟩

theorem findRowE_isSome (all_data : List Row) (i : String)
    (h : okB (findRowE all_data i) = true) :
    (all_data.find? (fun r => r.name == i)).isSome := by
  obtain ⟨r, hr⟩ := okB_ok _ h
  unfold findRowE at hr
  cases hf : all_data.find? (fun r => r.name == i) with
  | some s => rfl
  | none => rw [hf] at hr; cases hr

theorem define_variables_fold_spec (all_data : List Row) :
    ∀ acc : List String, acc.Nodup →
    (all_data.foldl (fun ks r => if r.name ∈ ks then ks else ks ++ [r.name]) acc).Nodup
    ∧ ∀ n, n ∈ all_data.foldl (fun ks r => if r.name ∈ ks then ks else ks ++ [r.name]) acc
        ↔ (n ∈ acc ∨ n ∈ all_data.map Row.name) := by
  induction all_data with
  | nil =>
      intro acc h
      exact ⟨h, fun n => by simp⟩
  | cons r rest ih =>
      intro acc hacc
      rw [List.foldl_cons]
      have hnd' : (if r.name ∈ acc then acc else acc ++ [r.name]).Nodup := by
        by_cases hmem : r.name ∈ acc
        · rw [if_pos hmem]
          exact hacc
        · rw [if_neg hmem]
          simp [List.nodup_append, hacc, hmem]
      have hmem' : ∀ n, n ∈ (if r.name ∈ acc then acc else acc ++ [r.name])
          ↔ (n ∈ acc ∨ n = r.name) := by
        intro n
        by_cases hmem : r.name ∈ acc
        · rw [if_pos hmem]
          constructor
          · exact fun h => .inl h
          · rintro (h | h)
            · exact h
            · exact h ▸ hmem
        · rw [if_neg hmem]
          simp [List.mem_append]
      obtain ⟨hnd2, hm2⟩ := ih _ hnd'
      refine ⟨hnd2, fun n => ?_⟩
      rw [hm2 n, hmem' n, List.map_cons, List.mem_cons]
      tauto

/-!  The claims. -/

/-- C1.  The specification fixes the volume coefficient of every ingredient
to `1 / density(category)` and flags the multiply-by-density variant as a
defect.  The primary variant (`src/src/bentokaze.py`) indeed emits the
coefficient `1 / density`, but the root variant (`src/bentokaze.py`,
`add_volume_constraint`, lines 59-70) multiplies the quantity by the
density: on a one-ingredient catalog of category `X` with density 2 it
gives the decision variable the coefficient 2 instead of 1/2, under the
constraint name `max_volume`. -/
theorem C1_root_volume_multiplies_by_density :
    BentoKaze.add_volume_constraint [⟨"A", "X", [("fat", 2)], 1⟩] [("X", 2)] 100 emptyProb
      = .ok ⟨none, [⟨[("A", 1/2)], .le, 100, "TotalVolume"⟩]⟩
    ∧ RootKaze.add_volume_constraint [⟨"A", "X", [("fat", 2)], 1⟩] [("X", 2)] 100 emptyProb
      = .ok ⟨none, [⟨[("A", 2)], .le, 100, "max_volume"⟩]⟩
    ∧ coeffOf [("A", (2 : Rat))] "A" ≠ 1 / densOfD [("X", 2)] "X" := by
  refine ⟨rfl, rfl, by norm_num [coeffOf, densOfD]⟩

/-- C7.  `set_objective` (and the root variant's `set_objective_function`)
adds a bare expression to the PuLP problem, which assigns the problem's
objective field: a second call replaces the objective with the same
`Σ unit_price(name) * quantity(name)` expression rather than accumulating
a second copy, and the constraint list is untouched. -/
theorem C7_set_objective_idempotent (all_data : List Row) (prob : LpProb) :
    BentoKaze.set_objective all_data (BentoKaze.set_objective all_data prob)
      = BentoKaze.set_objective all_data prob
    ∧ (BentoKaze.set_objective all_data prob).objective
      = some (all_data.map (fun r => (r.name, r.unit_price)))
    ∧ (BentoKaze.set_objective all_data prob).constraints = prob.constraints
    ∧ RootKaze.set_objective_function all_data
        (RootKaze.set_objective_function all_data prob)
      = RootKaze.set_objective_function all_data prob :=
  ⟨rfl, rfl, rfl, rfl⟩

/-- C2 counterexample.  The primary variant's `add_category_mass_constraints`
iterates over `self.density_dict.keys()`, not over the categories present in
the catalog: with one catalog ingredient of category `X` and a density table
covering `X` and `Y`, it emits a `MinMass_Y` constraint although `Y` occurs
on no catalog row, and that constraint's left-hand-side sum is empty. -/
theorem C2_counterexample :
    (BentoKaze.add_category_mass_constraints [⟨"A", "X", [], 1⟩] [("X", 1), ("Y", 2)]
        (1/2) emptyProb).constraints
      = [⟨[("A", 1)], .ge, 1/2, "MinMass_X"⟩, ⟨[], .ge, 1/2, "MinMass_Y"⟩]
    ∧ "Y" ∉ ([⟨"A", "X", [], 1⟩] : List Row).map Row.category := by
  refine ⟨rfl, by decide⟩

/-- C2.  Amended: starting from a fresh problem, the primary variant's
`add_category_mass_constraints` emits exactly one constraint per key of the
density dictionary (name `MinMass_` + category, left-hand side the
quantities of that category's catalog rows, `≥ min_mass_per_category`); a
density key with no catalog ingredient therefore yields a constraint with
an empty left-hand-side sum rather than being skipped. -/
theorem C2_one_constraint_per_density_key (all_data : List Row)
    (density_dict : List (String × Rat)) (min_mass_per_category : Rat)
    (hkeys : (density_dict.map Prod.fst).Nodup) :
    (BentoKaze.add_category_mass_constraints all_data density_dict
        min_mass_per_category emptyProb).constraints
      = density_dict.map
          (fun cd => BentoKaze.minMassConstraint all_data min_mass_per_category cd.1) := by
  unfold BentoKaze.add_category_mass_constraints
  rw [foldl_minMass all_data min_mass_per_category (density_dict.map Prod.fst) emptyProb
    (fun c _ d hd => absurd hd (by simp [emptyProb])) hkeys]
  rw [List.map_map]
  simp [emptyProb]

/-- C2 witness. -/
theorem C2_witness :
    (([("X", (1 : Rat)), ("Y", 2)].map Prod.fst).Nodup)
    ∧ (BentoKaze.add_category_mass_constraints [⟨"B", "Y", [], 3⟩] [("X", 1), ("Y", 2)]
        1 emptyProb).constraints
      = [("X", (1 : Rat)), ("Y", 2)].map
          (fun cd => BentoKaze.minMassConstraint [⟨"B", "Y", [], 3⟩] 1 cd.1) :=
  ⟨by decide, C2_one_constraint_per_density_key _ _ _ (by decide)⟩

/-- C3 counterexample.  Constructing the optimizer over an empty merged
table returns normally (`ok`, not an exception of any kind) and produces a
fresh problem with an empty decision-variable dictionary: the degenerate
zero-ingredient case is not rejected. -/
theorem C3_counterexample :
    BentoKaze.bentokaze_init ([] : List Row) = .ok (emptyProb, []) := rfl

/-- C3.  Amended: construction never raises; it defines one decision
variable per distinct ingredient name of the merged table (so an empty
table yields a problem with zero variables rather than a
`DataIntegrityError`). -/
theorem C3_empty_catalog_accepted (all_data : List Row) :
    BentoKaze.bentokaze_init all_data
      = .ok (emptyProb, BentoKaze.define_variables all_data)
    ∧ (BentoKaze.define_variables all_data).Nodup
    ∧ (∀ n, n ∈ BentoKaze.define_variables all_data ↔ n ∈ all_data.map Row.name) := by
  obtain ⟨hnd, hmem⟩ := define_variables_fold_spec all_data [] List.nodup_nil
  refine ⟨rfl, hnd, fun n => ?_⟩
  unfold BentoKaze.define_variables
  rw [hmem n]
  simp

/-- C5 counterexample.  An operator string that is neither `>=` nor `<=`
(here `==`) falls through both branches of `add_nutritional_constraints`'
if/elif: the call returns normally with the problem unchanged — no
constraint for the nutrient and no `ConfigurationError` (the embedded
result is `ok`, and in particular not the specification's
`ConfigurationError`). -/
theorem C5_counterexample :
    BentoKaze.add_nutritional_constraints [⟨"A", "X", [("fat", 2)], 1⟩] [("fat", 10)]
        [("fat", "==")] emptyProb = .ok emptyProb
    ∧ isConfigurationError (BentoKaze.add_nutritional_constraints
        [⟨"A", "X", [("fat", 2)], 1⟩] [("fat", 10)] [("fat", "==")] emptyProb) = false := by
  refine ⟨rfl, rfl⟩

/-- C5.  Amended: every `(nutrient, operator)` item whose operator is
neither `>=` nor `<=` is silently skipped — if no item carries a valid
operator the method returns the problem unchanged, raising nothing and
emitting nothing. -/
theorem C5_unknown_operator_silently_skipped (all_data : List Row)
    (target_nutrition : List (String × Rat)) (constraints : List (String × String))
    (prob : LpProb)
    (h : ∀ nc ∈ constraints, nc.2 ≠ ">=" ∧ nc.2 ≠ "<=") :
    BentoKaze.add_nutritional_constraints all_data target_nutrition constraints prob
      = .ok prob := by
  unfold BentoKaze.add_nutritional_constraints
  induction constraints generalizing prob with
  | nil => rfl
  | cons nc rest ih =>
      rw [List.foldlM_cons]
      have h1 := h nc (List.mem_cons_self _ _)
      have hstep : BentoKaze.nutrientStep all_data target_nutrition prob nc = .ok prob := by
        unfold BentoKaze.nutrientStep
        rw [if_neg (by simpa using h1.1), if_neg (by simpa using h1.2)]
        rfl
      rw [hstep]
      exact ih prob (fun x hx => h x (List.mem_cons_of_mem _ hx))

/-- C5 witness. -/
theorem C5_witness :
    (∀ nc ∈ ([("protein", "=")] : List (String × String)), nc.2 ≠ ">=" ∧ nc.2 ≠ "<=")
    ∧ BentoKaze.add_nutritional_constraints [⟨"B", "Y", [("protein", 4)], 2⟩]
        [("protein", 9)] [("protein", "=")] emptyProb = .ok emptyProb :=
  ⟨by decide, C5_unknown_operator_silently_skipped _ _ _ _ (by decide)⟩

/-- C6 counterexample.  The root variant's `solve` returns
`{v.name: v.varValue for v in self.prob.variables()}` with no filtering:
a decision variable whose solved value is zero is retained in the returned
assignment. -/
theorem C6_counterexample :
    RootKaze.solve [("A", (0 : Rat))] = [("A", 0)]
    ∧ ("A", (0 : Rat)) ∈ RootKaze.solve [("A", 0)] := by
  refine ⟨rfl, by decide⟩

/-- C6.  Amended: the primary variant's `solve` retains exactly the
variables with strictly positive value, so — because every decision
variable is created with lower bound 0, making solver values non-negative —
an ingredient appears in its assignment if and only if its solved quantity
is nonzero; the root variant instead retains every variable, zeros
included. -/
theorem C6_solve_keeps_exactly_nonzero (vals : List (String × Rat))
    (h : ∀ p ∈ vals, 0 ≤ p.2) (n : String) (v : Rat) :
    (n, v) ∈ BentoKaze.solve vals ↔ (n, v) ∈ vals ∧ v ≠ 0 := by
  unfold BentoKaze.solve
  rw [List.mem_filter]
  constructor
  · rintro ⟨hm, hv⟩
    have hv' : (0 : Rat) < v := by simpa using hv
    exact ⟨hm, ne_of_gt hv'⟩
  · rintro ⟨hm, hv⟩
    have hge := h (n, v) hm
    have hlt : (0 : Rat) < v := lt_of_le_of_ne hge (Ne.symm hv)
    exact ⟨hm, by simpa using hlt⟩

/-- C6 witness. -/
theorem C6_witness :
    (∀ p ∈ ([("A", (0 : Rat)), ("B", 3)] : List (String × Rat)), 0 ≤ p.2)
    ∧ (("B", (3 : Rat)) ∈ BentoKaze.solve [("A", 0), ("B", 3)]
        ↔ ("B", (3 : Rat)) ∈ ([("A", 0), ("B", 3)] : List (String × Rat)) ∧ (3 : Rat) ≠ 0) :=
  ⟨by decide, C6_solve_keeps_exactly_nonzero _ (by decide) "B" 3⟩

/-- C9 counterexample.  Exporting with formats `["xml", "lp"]` returns
normally: the unsupported `xml` format is logged and skipped via
`continue`, and the remaining `lp` format is still written — no
`UnsupportedFormatError` (indeed no exception at all) is raised. -/
theorem C9_counterexample :
    BentoKaze.export_problem "model" ["xml", "lp"] "models"
      = .ok [("models/model.lp", "lp")] := rfl

/-- C9.  Amended: `export_problem` never raises; it writes exactly the
supported formats (`mps`, `lp`) of the request, in order, to
`output_dir/filename.fmt`, silently skipping every unsupported format
while the remaining formats are still written. -/
theorem C9_unsupported_format_skipped (filename : String) (export_formats : List String)
    (output_dir : String) :
    BentoKaze.export_problem filename export_formats output_dir
      = .ok ((export_formats.filter (fun f => f == "mps" || f == "lp")).map
          (fun f => (output_dir ++ "/" ++ filename ++ "." ++ f, f))) := by
  unfold BentoKaze.export_problem
  congr 1
  induction export_formats with
  | nil => rfl
  | cons f fs ih =>
      by_cases hm : f = "mps"
      · simp [List.filterMap_cons, List.filter_cons, hm]
        simpa using ih
      · by_cases hl : f = "lp"
        · simp [List.filterMap_cons, List.filter_cons, hm, hl]
          simpa using ih
        · simp [List.filterMap_cons, List.filter_cons, hm, hl]
          simpa using ih

/-- C4 counterexample.  When the target specification names nutrient `fat`
with operator `>=` but the catalog rows carry no `fat` column, the
constraint-building loop's `row[nutrient]` lookup raises the built-in
`KeyError` — not the specification's `DataIntegrityError`, a class the
source never defines. -/
theorem C4_counterexample :
    BentoKaze.add_nutritional_constraints [⟨"A", "X", [("protein", 5)], 1⟩]
        [("fat", 10)] [("fat", ">=")] emptyProb = .error (.keyError "fat")
    ∧ isDataIntegrityError (BentoKaze.add_nutritional_constraints
        [⟨"A", "X", [("protein", 5)], 1⟩] [("fat", 10)] [("fat", ">=")] emptyProb)
      = false := by
  refine ⟨rfl, rfl⟩

/-- C4.  Amended: if some `(nutrient, operator)` item of the constraints
dictionary carries operator `>=` or `<=` and some catalog row lacks that
nutrient's column, `add_nutritional_constraints` raises a `KeyError` (the
built-in lookup error, not the specification's `DataIntegrityError`); the
method aborts with that exception, so the nutrient is never treated as
contributing zero to an emitted constraint sum. -/
theorem C4_missing_nutrient_raises_keyError (all_data : List Row)
    (target_nutrition : List (String × Rat)) (constraints : List (String × String))
    (prob : LpProb) (nutrient op : String)
    (hmem : (nutrient, op) ∈ constraints)
    (hop : op = ">=" ∨ op = "<=")
    (hmiss : ∃ r ∈ all_data, r.nutrients.lookup nutrient = none) :
    ∃ k, BentoKaze.add_nutritional_constraints all_data target_nutrition constraints prob
      = .error (.keyError k) := by
  have hbad := nutrientStep_fails all_data target_nutrition (nutrient, op) hop hmiss
  exact foldlM_nutrient_error all_data target_nutrition (nutrient, op) hbad
    constraints prob hmem

/-- C4 witness. -/
theorem C4_witness :
    ((("fat", ">=") ∈ ([("carb", "<="), ("fat", ">=")] : List (String × String)))
      ∧ (∃ r ∈ ([⟨"B", "Y", [("carb", 3)], 2⟩] : List Row),
          r.nutrients.lookup "fat" = none))
    ∧ ∃ k, BentoKaze.add_nutritional_constraints [⟨"B", "Y", [("carb", 3)], 2⟩]
        [("carb", 7), ("fat", 4)] [("carb", "<="), ("fat", ">=")] emptyProb
      = .error (.keyError k) :=
  ⟨⟨by decide, by decide⟩,
    C4_missing_nutrient_raises_keyError _ _ _ _ "fat" ">=" (by decide) (.inl rfl) (by decide)⟩

/-- C8.  On a table with unique ingredient names whose categories all have
densities, and a solution whose (unique) ingredient names all come from the
table, `calculate_total_volume` returns exactly the value of the
`TotalVolume` constraint's left-hand side at the assignment induced by the
solution (absent variables at 0): the deriver and `add_volume_constraint`
use the identical `1 / density(category(name))` per-unit coefficient. -/
theorem C8_volume_deriver_matches_constraint (all_data : List Row)
    (density_dict sol : List (String × Rat)) (max_volume : Rat) (prob : LpProb)
    (h1 : (all_data.map Row.name).Nodup)
    (h2 : (sol.map Prod.fst).Nodup)
    (h3 : ∀ p ∈ sol, p.1 ∈ all_data.map Row.name)
    (h4 : ∀ r ∈ all_data, (density_dict.lookup r.category).isSome) :
    ∃ terms,
      BentoKaze.volumeTerms all_data density_dict = .ok terms
      ∧ BentoKaze.add_volume_constraint all_data density_dict max_volume prob
          = .ok (probAddConstraint prob ⟨terms, .le, max_volume, "TotalVolume"⟩)
      ∧ BentoKaze.calculate_total_volume all_data density_dict sol
          = .ok (evalTerms terms (asgOf sol)) := by
  have hterms : BentoKaze.volumeTerms all_data density_dict
      = .ok (all_data.map (fun r => (r.name, 1 / densOfD density_dict r.category))) := by
    unfold BentoKaze.volumeTerms
    refine mapM_ok_of _ _ all_data (fun r hr => ?_)
    obtain ⟨d0, hd0⟩ := Option.isSome_iff_exists.mp (h4 r hr)
    have hlk : lookupE density_dict r.category = pure d0 := by
      unfold lookupE
      rw [hd0]
      rfl
    rw [hlk, pure_bind]
    unfold densOfD
    rw [hd0]
    rfl
  refine ⟨_, hterms, ?_, ?_⟩
  · unfold BentoKaze.add_volume_constraint
    rw [hterms]
    rfl
  · have hcalc : BentoKaze.calculate_total_volume all_data density_dict sol
        = .ok (0 + (sol.map (fun p => p.2 * rowCoeffD all_data density_dict p.1)).sum) := by
      unfold BentoKaze.calculate_total_volume
      exact volume_foldlM_ok all_data density_dict sol 0 h3 h4
    rw [hcalc, zero_add]
    congr 1
    unfold evalTerms
    rw [List.map_map]
    have hpoint : ∀ r ∈ all_data,
        ((fun t : String × Rat => t.2 * asgOf sol t.1) ∘
          (fun r : Row => (r.name, 1 / densOfD density_dict r.category))) r
        = rowCoeffD all_data density_dict r.name * asgOf sol r.name := by
      intro r hr
      show (1 / densOfD density_dict r.category) * asgOf sol r.name
        = rowCoeffD all_data density_dict r.name * asgOf sol r.name
      unfold rowCoeffD
      rw [find?_name_self all_data r h1 hr]
    rw [List.map_congr_left hpoint]
    have hmm2 : all_data.map
        (fun r => rowCoeffD all_data density_dict r.name * asgOf sol r.name)
        = (all_data.map Row.name).map
            (fun n => rowCoeffD all_data density_dict n * asgOf sol n) := by
      rw [List.map_map]
      rfl
    rw [hmm2]
    exact (sum_reindex (all_data.map Row.name) sol
      (rowCoeffD all_data density_dict) h1 h2 h3).symm

/-- C8 witness. -/
theorem C8_witness :
    ((([⟨"A", "X", [("fat", 2)], 1⟩, ⟨"B", "Y", [], 3⟩] : List Row).map Row.name).Nodup
      ∧ (([("A", (1 : Rat)), ("B", 1)] : List (String × Rat)).map Prod.fst).Nodup
      ∧ (∀ p ∈ ([("A", (1 : Rat)), ("B", 1)] : List (String × Rat)),
          p.1 ∈ ([⟨"A", "X", [("fat", 2)], 1⟩, ⟨"B", "Y", [], 3⟩] : List Row).map Row.name)
      ∧ (∀ r ∈ ([⟨"A", "X", [("fat", 2)], 1⟩, ⟨"B", "Y", [], 3⟩] : List Row),
          (([("X", (1 : Rat)), ("Y", 2)] : List (String × Rat)).lookup r.category).isSome))
    ∧ ∃ terms,
      BentoKaze.volumeTerms [⟨"A", "X", [("fat", 2)], 1⟩, ⟨"B", "Y", [], 3⟩]
          [("X", 1), ("Y", 2)] = .ok terms
      ∧ BentoKaze.add_volume_constraint [⟨"A", "X", [("fat", 2)], 1⟩, ⟨"B", "Y", [], 3⟩]
          [("X", 1), ("Y", 2)] 100 emptyProb
          = .ok (probAddConstraint emptyProb ⟨terms, .le, 100, "TotalVolume"⟩)
      ∧ BentoKaze.calculate_total_volume [⟨"A", "X", [("fat", 2)], 1⟩, ⟨"B", "Y", [], 3⟩]
          [("X", 1), ("Y", 2)] [("A", 1), ("B", 1)]
          = .ok (evalTerms terms (asgOf [("A", 1), ("B", 1)])) :=
  ⟨⟨by decide, by decide, by decide, by decide⟩,
    C8_volume_deriver_matches_constraint _ _ _ 100 emptyProb
      (by decide) (by decide) (by decide) (by decide)⟩

/-- C10.  On a solution whose ingredients all occur in the table and whose
rows carry every target nutrient's column, `calculate_nutrition_values`
returns the mapping with exactly the target specification's keys, each
nutrient mapped to `Σ nutrient(ingredient) * amount` over the solution's
entries (so an empty solution yields every nutrient at 0, and ingredients
absent from the solution contribute nothing). -/
theorem C10_nutrition_totals (all_data : List Row)
    (target_nutrition sol : List (String × Rat))
    (hfind : ∀ p ∈ sol, okB (findRowE all_data p.1) = true)
    (hnutr : ∀ p ∈ sol, ∀ t ∈ target_nutrition, okB (nutrLookupE all_data p.1 t.1) = true) :
    BentoKaze.calculate_nutrition_values all_data target_nutrition sol
      = .ok (target_nutrition.map (fun t => (t.1, nutrTotal all_data sol t.1))) := by
  unfold BentoKaze.calculate_nutrition_values
  have hargfind : ∀ p ∈ sol, (all_data.find? (fun r => r.name == p.1)).isSome :=
    fun p hp => findRowE_isSome all_data p.1 (hfind p hp)
  have hargnutr : ∀ p ∈ sol, ∀ nv ∈ target_nutrition.map (fun t => (t.1, (0 : Rat))),
      okB (nutrLookupE all_data p.1 nv.1) = true := by
    intro p hp nv hnv
    obtain ⟨t, ht, hteq⟩ := List.mem_map.mp hnv
    have h1 : nv.1 = t.1 := by rw [← hteq]
    rw [h1]
    exact hnutr p hp t ht
  rw [nutrition_foldlM_ok all_data sol _ hargfind hargnutr]
  congr 1
  rw [List.map_map]
  refine List.map_congr_left (fun t ht => ?_)
  show (t.1, 0 + nutrTotal all_data sol t.1) = (t.1, nutrTotal all_data sol t.1)
  rw [zero_add]

/-- C10 witness. -/
theorem C10_witness :
    ((∀ p ∈ ([("A", (1 : Rat))] : List (String × Rat)),
        okB (findRowE [⟨"A", "X", [("fat", 2)], 1⟩] p.1) = true)
      ∧ (∀ p ∈ ([("A", (1 : Rat))] : List (String × Rat)),
          ∀ t ∈ ([("fat", (2 : Rat))] : List (String × Rat)),
          okB (nutrLookupE [⟨"A", "X", [("fat", 2)], 1⟩] p.1 t.1) = true))
    ∧ BentoKaze.calculate_nutrition_values [⟨"A", "X", [("fat", 2)], 1⟩]
        [("fat", 2)] [("A", 1)]
      = .ok (([("fat", (2 : Rat))] : List (String × Rat)).map
          (fun t => (t.1, nutrTotal [⟨"A", "X", [("fat", 2)], 1⟩] [("A", 1)] t.1))) :=
  ⟨⟨by decide, by decide⟩,
    C10_nutrition_totals _ _ _ (by decide) (by decide)⟩
